import Mathlib

/-!
Verification of the Ax tutorial repository against its specification.

The repository consists of tutorial notebooks that call the external Ax
`Client` API.  The functions actually defined in the notebooks
(`hartmann6`, `evaluate`) are embedded directly from the source.  The
ask-tell experiment controller, trial ledger, result selector and
persistence contracts live in the external library, so — following the
specification's §2–§7 "nearest-core" design — they are modelled here from
the spec's words; every such definition is marked `Modelled from the
spec:`.  Scalar metric and parameter values are modelled as rationals.
-/

namespace AxSpec

/-- Modelled from the spec: a concrete parameter value (the external
library's parameter values are floats, integers or categorical strings;
numeric values are modelled as rationals). -/
inductive PValue where
  | num (q : ℚ)
  | str (s : String)
deriving DecidableEq, Repr

/-- Modelled from the spec: the domain of one tunable dimension —
continuous range, integer range, or categorical choice set (§3 Parameter
Definition). -/
inductive Domain where
  | contRange (lo hi : ℚ) (logScale : Bool)
  | intRange (lo hi : ℤ)
  | choice (values : List PValue) (isOrdered : Bool)
deriving DecidableEq, Repr

/-- Modelled from the spec: a Parameter Definition — unique name plus a
domain (§3). -/
structure ParamDef where
  name : String
  domain : Domain
deriving DecidableEq, Repr

/-- Modelled from the spec: the Parameter Space, a list of parameter
definitions (§2). -/
def ParamSpace := List ParamDef
deriving DecidableEq

/-- Modelled from the spec: a Parameterization, a mapping from parameter
name to a concrete value (§3). -/
def Parameterization := List (String × PValue)
deriving DecidableEq

/-- Modelled from the spec: a trial's raw data, a mapping from metric name
to a scalar reading (§3 Metric Reading). -/
def RawData := List (String × ℚ)
deriving DecidableEq

/-- Modelled from the spec: trial status (§3 Trial). -/
inductive TrialStatus where
  | candidate
  | running
  | earlyStopped
  | completed
  | failed
deriving DecidableEq, Repr

/-- Modelled from the spec: the terminal statuses are COMPLETED,
EARLY_STOPPED and FAILED (§3). -/
def TrialStatus.isTerminal : TrialStatus → Bool
  | .completed => true
  | .earlyStopped => true
  | .failed => true
  | _ => false

/-- Modelled from the spec: a Trial record — monotonically increasing
integer index, parameterization, status, a sequence of (progression,
metric readings) observations, and final raw data once completed (§3). -/
structure Trial where
  index : ℕ
  param : Parameterization
  status : TrialStatus
  observations : List (ℚ × RawData)
  finalData : Option RawData
deriving DecidableEq

/-- Modelled from the spec: one objective — metric name, minimize or
maximize direction, optional linear weight (§3 Optimization
Configuration). -/
structure Objective where
  metric : String
  minimize : Bool
  weight : ℚ
deriving DecidableEq

/-- Modelled from the spec: one outcome constraint — metric name, a
comparison operator (`isUpperBound = true` for ≤, `false` for ≥) and a
threshold (§3). -/
structure OutcomeConstraint where
  metric : String
  isUpperBound : Bool
  threshold : ℚ
deriving DecidableEq

/-- Modelled from the spec: the Optimization Configuration — objectives
plus outcome constraints (§3). -/
structure OptConfig where
  objectives : List Objective
  constraints : List OutcomeConstraint
deriving DecidableEq

/-- Modelled from the spec: the experiment state owned by the Experiment
Controller — Parameter Space, Optimization Configuration and the Trial
Ledger (§3, §4.1). -/
structure Experiment where
  space : ParamSpace
  config : OptConfig
  ledger : List Trial
deriving DecidableEq

/-- Modelled from the spec: the error taxonomy of §7. -/
inductive AxError where
  | ConfigurationError
  | DomainError
  | UnknownTrialError
  | StateError
  | InsufficientDataError
deriving DecidableEq, Repr

/-- Modelled from the spec: whether a concrete value is consistent with a
domain (§3 Parameterization).  Integer values are rationals with
denominator 1. -/
def valueInDomain : Domain → PValue → Bool
  | .contRange lo hi _, .num q => decide (lo ≤ q) && decide (q ≤ hi)
  | .contRange _ _ _, .str _ => false
  | .intRange lo hi, .num q => q.den == 1 && decide (lo ≤ q.num) && decide (q.num ≤ hi)
  | .intRange _ _, .str _ => false
  | .choice vs _, v => vs.contains v

/-- Modelled from the spec: a parameterization is valid for the space when
it assigns every configured parameter a value in its domain and references
no unknown parameter name (§3, §4.1 `attach`). -/
def validParam (sp : ParamSpace) (pz : Parameterization) : Bool :=
  sp.all (fun d => match pz.lookup d.name with
    | some v => valueInDomain d.domain v
    | none => false)
  && pz.all (fun nv => sp.any (fun d => d.name == nv.1))

/-- Modelled from the spec: look a trial up in the Ledger by index. -/
def Experiment.findTrial (e : Experiment) (i : ℕ) : Option Trial :=
  e.ledger.find? (fun t => t.index == i)

/-- Modelled from the spec: in-place mutation of the trial with the given
index (the Ledger permits status/data mutation until a terminal state,
§3). -/
def Experiment.updateTrial (e : Experiment) (i : ℕ) (f : Trial → Trial) : Experiment :=
  { e with ledger := e.ledger.map (fun t => if t.index == i then f t else t) }

/-- Modelled from the spec: fresh trials for a batch of parameterizations,
indices assigned consecutively in creation order starting at `n` (§3 Trial
Ledger invariant); new trials enter the Ledger in RUNNING status
(§4.1 `ask`). -/
def mkTrials : ℕ → List Parameterization → List Trial
  | _, [] => []
  | n, p :: ps => ⟨n, p, .running, [], none⟩ :: mkTrials (n + 1) ps

/-- Modelled from the spec: `ask` (the external `Client.get_next_trials`
is not in this repository).  The candidate generator's output is passed in
as `cands`; each parameterization is validated against the Parameter Space
(DomainError otherwise), inserted as a new RUNNING trial, and the mapping
from new trial index to parameterization is returned (§4.1). -/
def ask (e : Experiment) (cands : List Parameterization) :
    Except AxError (List (ℕ × Parameterization)) × Experiment :=
  if cands.all (validParam e.space) then
    (.ok ((mkTrials e.ledger.length cands).map (fun t => (t.index, t.param))),
     { e with ledger := e.ledger ++ mkTrials e.ledger.length cands })
  else
    (.error .DomainError, e)

/-- Modelled from the spec: `attach` (the external `Client.attach_trial` /
`attach_baseline` is not in this repository).  Registers an external
parameterization as a new RUNNING trial and returns its index; DomainError
if outside the configured space (§4.1). -/
def attachTrial (e : Experiment) (pz : Parameterization) :
    Except AxError ℕ × Experiment :=
  if validParam e.space pz then
    (.ok e.ledger.length,
     { e with ledger := e.ledger ++ mkTrials e.ledger.length [pz] })
  else
    (.error .DomainError, e)

/-- Modelled from the spec: `tell` (the external `Client.complete_trial`
is not in this repository).  Attaches raw data as final metrics and
transitions the trial to COMPLETED; UnknownTrialError for a missing index,
StateError if the trial is already terminal (§4.1). -/
def tell (e : Experiment) (i : ℕ) (raw : RawData) :
    Except AxError Unit × Experiment :=
  match e.findTrial i with
  | none => (.error .UnknownTrialError, e)
  | some t =>
    if t.status.isTerminal then
      (.error .StateError, e)
    else
      (.ok (), e.updateTrial i (fun t => { t with status := .completed, finalData := some raw }))

/-- Modelled from the spec: the progression of a trial's most recent
observation, if any. -/
def lastProgression (t : Trial) : Option ℚ :=
  t.observations.getLast?.map Prod.fst

/-- Modelled from the spec: `report_progress` (the external
`Client.attach_data` is not in this repository).  Appends an intermediate
observation without completing the trial; terminal trials reject the call
with StateError (§8), and progression must be non-decreasing across calls
for the same trial — violating this fails with StateError (§4.1). -/
def reportProgress (e : Experiment) (i : ℕ) (raw : RawData) (prog : ℚ) :
    Except AxError Unit × Experiment :=
  match e.findTrial i with
  | none => (.error .UnknownTrialError, e)
  | some t =>
    if t.status.isTerminal then
      (.error .StateError, e)
    else
      match lastProgression t with
      | some p =>
        if prog < p then
          (.error .StateError, e)
        else
          (.ok (), e.updateTrial i (fun t => { t with observations := t.observations ++ [(prog, raw)] }))
      | none =>
        (.ok (), e.updateTrial i (fun t => { t with observations := t.observations ++ [(prog, raw)] }))

/-- Modelled from the spec: `mark_early_stopped` (the external
`Client.mark_trial_early_stopped` is not in this repository).  Transitions
RUNNING → EARLY_STOPPED; StateError if the trial is not RUNNING (§4.1). -/
def markEarlyStopped (e : Experiment) (i : ℕ) :
    Except AxError Unit × Experiment :=
  match e.findTrial i with
  | none => (.error .UnknownTrialError, e)
  | some t =>
    if t.status == .running then
      (.ok (), e.updateTrial i (fun t => { t with status := .earlyStopped }))
    else
      (.error .StateError, e)

/-- Modelled from the spec: an explicit failure report — any non-terminal
state transitions to FAILED (§3 Trial transitions). -/
def markFailed (e : Experiment) (i : ℕ) :
    Except AxError Unit × Experiment :=
  match e.findTrial i with
  | none => (.error .UnknownTrialError, e)
  | some t =>
    if t.status.isTerminal then
      (.error .StateError, e)
    else
      (.ok (), e.updateTrial i (fun t => { t with status := .failed }))

/-- Modelled from the spec: one state-mutating operation of the Experiment
Controller's public contract (§4.1).  `ask` carries the candidate
generator's output for that call. -/
inductive Op where
  | ask (cands : List Parameterization)
  | attach (pz : Parameterization)
  | tell (i : ℕ) (raw : RawData)
  | reportProgress (i : ℕ) (raw : RawData) (prog : ℚ)
  | markEarlyStopped (i : ℕ)
  | markFailed (i : ℕ)

/-- Modelled from the spec: apply one controller operation to the
experiment state, keeping the (possibly unchanged) state and discarding
the returned value or error. -/
def applyOp (e : Experiment) : Op → Experiment
  | .ask cands => (ask e cands).2
  | .attach pz => (attachTrial e pz).2
  | .tell i raw => (tell e i raw).2
  | .reportProgress i raw prog => (reportProgress e i raw prog).2
  | .markEarlyStopped i => (markEarlyStopped e i).2
  | .markFailed i => (markFailed e i).2

/-- Modelled from the spec: a freshly configured experiment with an empty
Ledger. -/
def Experiment.init (sp : ParamSpace) (cfg : OptConfig) : Experiment :=
  ⟨sp, cfg, []⟩

/-- Modelled from the spec: run a sequence of controller operations from a
state. -/
def run (e : Experiment) (ops : List Op) : Experiment :=
  ops.foldl applyOp e

/-- Modelled from the spec: the Trial Ledger invariant on indices — trial
indices are unique and assigned consecutively in creation order (§3). -/
def indicesOk (e : Experiment) : Prop :=
  e.ledger.map Trial.index = List.range e.ledger.length

/-- Modelled from the spec: the progression-monotonicity invariant — every
trial's recorded progression values are non-decreasing (§4.1
`report_progress`). -/
def obsSorted (e : Experiment) : Prop :=
  ∀ t ∈ e.ledger, (t.observations.map Prod.fst).Pairwise (· ≤ ·)

/-- Modelled from the spec: a raw-data mapping covers the configuration
when every metric referenced by the objectives and outcome constraints
appears in it (§3: required before the trial may be considered for
selection). -/
def coversConfig (cfg : OptConfig) (d : RawData) : Bool :=
  cfg.objectives.all (fun o => (d.lookup o.metric).isSome)
  && cfg.constraints.all (fun c => (d.lookup c.metric).isSome)

/-- Modelled from the spec: raw data satisfies an outcome constraint when
the reading exists and compares with the threshold under the configured
operator (§4.4). -/
def satisfiesConstraint (d : RawData) (c : OutcomeConstraint) : Bool :=
  match d.lookup c.metric with
  | some v => if c.isUpperBound then decide (v ≤ c.threshold) else decide (c.threshold ≤ v)
  | none => false

/-- Modelled from the spec: raw data satisfies every outcome constraint of
the configuration (§4.4). -/
def satisfiesConstraints (cfg : OptConfig) (d : RawData) : Bool :=
  cfg.constraints.all (satisfiesConstraint d)

/-- Modelled from the spec: a trial is COMPLETED with final raw data
satisfying every outcome constraint (§4.4). -/
def completedSatisfying (cfg : OptConfig) (t : Trial) : Bool :=
  t.status == .completed
  && (match t.finalData with
      | some d => satisfiesConstraints cfg d
      | none => false)

/-- Modelled from the spec: the trial's final raw data covers every metric
referenced by the configuration (§3). -/
def coveredB (cfg : OptConfig) (t : Trial) : Bool :=
  match t.finalData with
  | some d => coversConfig cfg d
  | none => false

/-- Modelled from the spec: a trial qualifies for selection when it is
COMPLETED, its final raw data satisfies every outcome constraint (§4.4)
and covers every configured metric (§3). -/
def eligPred (cfg : OptConfig) (t : Trial) : Bool :=
  completedSatisfying cfg t && coveredB cfg t

/-- Modelled from the spec: the qualifying trials the Result Selector
scans (§4.4). -/
def eligible (e : Experiment) : List Trial :=
  e.ledger.filter (eligPred e.config)

/-- Modelled from the spec: the completed trials whose final raw data
satisfies every outcome constraint, independent of metric coverage
(§4.4's wording of the scanned set). -/
def constraintSatisfying (e : Experiment) : List Trial :=
  e.ledger.filter (completedSatisfying e.config)

/-- Modelled from the spec: the direction-and-weight-normalized objective
value of raw data — each objective contributes its linear weight times the
reading, negated for a minimized metric, so that larger is always better
(§3, §4.4). -/
def scoreOf (cfg : OptConfig) (d : RawData) : ℚ :=
  cfg.objectives.foldl
    (fun acc o =>
      acc + o.weight * (if o.minimize then -((d.lookup o.metric).getD 0) else (d.lookup o.metric).getD 0))
    0

/-- Modelled from the spec: the selection score of a trial (its final raw
data's normalized objective value). -/
def key (cfg : OptConfig) (t : Trial) : ℚ :=
  match t.finalData with
  | some d => scoreOf cfg d
  | none => 0

/-- Modelled from the spec: scan for the trial with the best normalized
objective value, breaking ties by lowest trial index (§4.4). -/
def pickBest (cfg : OptConfig) : Trial → List Trial → Trial
  | best, [] => best
  | best, t :: ts =>
    pickBest cfg
      (if key cfg best < key cfg t ∨ (key cfg t = key cfg best ∧ t.index < best.index) then t else best)
      ts

/-- Modelled from the spec: `best` (the external
`Client.get_best_parameterization` is not in this repository).  Returns
the qualifying trial with the best objective value, ties broken by lowest
index; InsufficientDataError if no trial qualifies (§4.1, §4.4). -/
def bestResult (e : Experiment) : Except AxError Trial :=
  match eligible e with
  | [] => .error .InsufficientDataError
  | t :: ts => .ok (pickBest e.config t ts)

/-- Modelled from the spec: the direction-normalized reading of one
objective's metric in raw data, so that larger is better (§4.4
multi-objective). -/
def dirVal (o : Objective) (d : RawData) : ℚ :=
  (if o.minimize then -1 else 1) * (d.lookup o.metric).getD 0

/-- Modelled from the spec: trial `u` dominates trial `t` when `u` is at
least as good on every objective and strictly better on at least one,
after applying each objective's direction (§4.4). -/
def dominates (cfg : OptConfig) (u t : Trial) : Bool :=
  match u.finalData, t.finalData with
  | some du, some dt =>
    cfg.objectives.all (fun o => decide (dirVal o dt ≤ dirVal o du))
    && cfg.objectives.any (fun o => decide (dirVal o dt < dirVal o du))
  | _, _ => false

/-- Modelled from the spec: `pareto_frontier` (the external
`Client.get_pareto_frontier` is not in this repository).  Returns the
non-dominated subset of the qualifying trials; InsufficientDataError if no
trial qualifies (§4.1, §4.4). -/
def paretoResult (e : Experiment) : Except AxError (List Trial) :=
  if eligible e = [] then
    .error .InsufficientDataError
  else
    .ok ((eligible e).filter (fun t => (eligible e).all (fun u => !(dominates e.config u t))))

/-- Modelled from the spec: the self-describing serialized form produced
by `snapshot()` (§6 Persistence) — a tree of tagged nodes over naturals,
rationals and strings. -/
inductive SExp where
  | nat (n : ℕ)
  | rat (q : ℚ)
  | str (s : String)
  | node (cs : List SExp)

/-- Modelled from the spec: decode a list of serialized items
elementwise; fails when any element fails. -/
def decList {α : Type} (g : SExp → Option α) : List SExp → Option (List α)
  | [] => some []
  | x :: xs => do
    let a ← g x
    let as ← decList g xs
    some (a :: as)

/-- Modelled from the spec: serialize a parameter value. -/
def encPValue : PValue → SExp
  | .num q => .node [.str "num", .rat q]
  | .str s => .node [.str "str", .str s]

/-- Modelled from the spec: deserialize a parameter value. -/
def decPValue : SExp → Option PValue
  | .node [.str "num", .rat q] => some (.num q)
  | .node [.str "str", .str s] => some (.str s)
  | _ => none

/-- Modelled from the spec: serialize a Bool flag. -/
def encBool (b : Bool) : SExp :=
  .nat (if b then 1 else 0)

/-- Modelled from the spec: deserialize a Bool flag. -/
def decBool : SExp → Option Bool
  | .nat 0 => some false
  | .nat 1 => some true
  | _ => none

/-- Modelled from the spec: serialize an integer. -/
def encInt (z : ℤ) : SExp :=
  .rat (z : ℚ)

/-- Modelled from the spec: deserialize an integer. -/
def decInt : SExp → Option ℤ
  | .rat q => if q.den = 1 then some q.num else none
  | _ => none

/-- Modelled from the spec: serialize a parameter domain. -/
def encDomain : Domain → SExp
  | .contRange lo hi ls => .node [.str "cont", .rat lo, .rat hi, encBool ls]
  | .intRange lo hi => .node [.str "int", encInt lo, encInt hi]
  | .choice vs ord => .node [.str "choice", .node (vs.map encPValue), encBool ord]

/-- Modelled from the spec: deserialize a parameter domain. -/
def decDomain : SExp → Option Domain
  | .node [.str "cont", .rat lo, .rat hi, ls] => do
    let b ← decBool ls
    some (.contRange lo hi b)
  | .node [.str "int", lo, hi] => do
    let l ← decInt lo
    let h ← decInt hi
    some (.intRange l h)
  | .node [.str "choice", .node vs, ord] => do
    let values ← decList decPValue vs
    let b ← decBool ord
    some (.choice values b)
  | _ => none

/-- Modelled from the spec: serialize a parameter definition. -/
def encParamDef (d : ParamDef) : SExp :=
  .node [.str d.name, encDomain d.domain]

/-- Modelled from the spec: deserialize a parameter definition. -/
def decParamDef : SExp → Option ParamDef
  | .node [.str n, dom] => do
    let d ← decDomain dom
    some ⟨n, d⟩
  | _ => none

/-- Modelled from the spec: serialize one parameterization entry. -/
def encPzEntry (nv : String × PValue) : SExp :=
  .node [.str nv.1, encPValue nv.2]

/-- Modelled from the spec: deserialize one parameterization entry. -/
def decPzEntry : SExp → Option (String × PValue)
  | .node [.str n, v] => do
    let pv ← decPValue v
    some (n, pv)
  | _ => none

/-- Modelled from the spec: serialize one metric reading. -/
def encReading (nv : String × ℚ) : SExp :=
  .node [.str nv.1, .rat nv.2]

/-- Modelled from the spec: deserialize one metric reading. -/
def decReading : SExp → Option (String × ℚ)
  | .node [.str n, .rat q] => some (n, q)
  | _ => none

/-- Modelled from the spec: serialize raw data. -/
def encRaw (d : RawData) : SExp :=
  .node (List.map encReading d)

/-- Modelled from the spec: deserialize raw data. -/
def decRaw : SExp → Option RawData
  | .node cs => decList decReading cs
  | _ => none

/-- Modelled from the spec: serialize one progression observation. -/
def encObs (o : ℚ × RawData) : SExp :=
  .node [.rat o.1, encRaw o.2]

/-- Modelled from the spec: deserialize one progression observation. -/
def decObs : SExp → Option (ℚ × RawData)
  | .node [.rat p, d] => do
    let raw ← decRaw d
    some (p, raw)
  | _ => none

/-- Modelled from the spec: serialize a trial status. -/
def encStatus : TrialStatus → SExp
  | .candidate => .str "CANDIDATE"
  | .running => .str "RUNNING"
  | .earlyStopped => .str "EARLY_STOPPED"
  | .completed => .str "COMPLETED"
  | .failed => .str "FAILED"

/-- Modelled from the spec: deserialize a trial status. -/
def decStatus : SExp → Option TrialStatus
  | .str "CANDIDATE" => some .candidate
  | .str "RUNNING" => some .running
  | .str "EARLY_STOPPED" => some .earlyStopped
  | .str "COMPLETED" => some .completed
  | .str "FAILED" => some .failed
  | _ => none

/-- Modelled from the spec: serialize a trial's optional final data. -/
def encFinal : Option RawData → SExp
  | none => .str "nofinal"
  | some d => .node [.str "final", encRaw d]

/-- Modelled from the spec: deserialize a trial's optional final data. -/
def decFinal : SExp → Option (Option RawData)
  | .str "nofinal" => some none
  | .node [.str "final", d] => do
    let raw ← decRaw d
    some (some raw)
  | _ => none

/-- Modelled from the spec: serialize a complete trial record — index,
parameterization, status, observations and final data, with no field
omitted (§6). -/
def encTrial (t : Trial) : SExp :=
  .node [.nat t.index, .node (List.map encPzEntry t.param), encStatus t.status,
         .node (List.map encObs t.observations), encFinal t.finalData]

/-- Modelled from the spec: deserialize a complete trial record. -/
def decTrial : SExp → Option Trial
  | .node [.nat i, .node pz, st, .node obs, fin] => do
    let param ← decList decPzEntry pz
    let status ← decStatus st
    let observations ← decList decObs obs
    let finalData ← decFinal fin
    some ⟨i, param, status, observations, finalData⟩
  | _ => none

/-- Modelled from the spec: serialize an objective. -/
def encObjective (o : Objective) : SExp :=
  .node [.str o.metric, encBool o.minimize, .rat o.weight]

/-- Modelled from the spec: deserialize an objective. -/
def decObjective : SExp → Option Objective
  | .node [.str m, mn, .rat w] => do
    let b ← decBool mn
    some ⟨m, b, w⟩
  | _ => none

/-- Modelled from the spec: serialize an outcome constraint. -/
def encConstraint (c : OutcomeConstraint) : SExp :=
  .node [.str c.metric, encBool c.isUpperBound, .rat c.threshold]

/-- Modelled from the spec: deserialize an outcome constraint. -/
def decConstraint : SExp → Option OutcomeConstraint
  | .node [.str m, ub, .rat th] => do
    let b ← decBool ub
    some ⟨m, b, th⟩
  | _ => none

/-- Modelled from the spec: `snapshot()` — a complete, self-describing
representation of the §3 data model: Parameter Space, Optimization
Configuration and the full Trial Ledger (§6 Persistence; the external
library's persistence layer is not in this repository). -/
def snapshot (e : Experiment) : SExp :=
  .node [.node (List.map encParamDef e.space),
         .node [.node (List.map encObjective e.config.objectives),
                .node (List.map encConstraint e.config.constraints)],
         .node (List.map encTrial e.ledger)]

/-- Modelled from the spec: `restore(snapshot)` — reconstruct the
experiment state from its serialized form (§6 Persistence). -/
def restore : SExp → Option Experiment
  | .node [.node sp, .node [.node objs, .node cons], .node ledger] => do
    let space ← decList decParamDef sp
    let objectives ← decList decObjective objs
    let constraints ← decList decConstraint cons
    let trials ← decList decTrial ledger
    some ⟨space, ⟨objectives, constraints⟩, trials⟩
  | _ => none

/-! Source embedding: the Hartmann6 objective from the getting-started
notebook, interpreted over the reals.  The code builds `alpha`, `A` and
`P` (the latter as `10 ** -4` times an integer matrix), accumulates
`inner += A[i, j] * (x - P[i, j]) ** 2` over the six coordinates, then
`outer += alpha[i] * exp(-inner)` over the four rows, and returns
`-outer`. -/

noncomputable section

/-- The `alpha` vector from the notebook's `hartmann6`. -/
def h6alpha : List ℝ := [1.0, 1.2, 3.0, 3.2]

/-- The `A` matrix from the notebook's `hartmann6`, row by row. -/
def h6A : List (List ℝ) :=
  [[10, 3, 17, 3.5, 1.7, 8],
   [0.05, 10, 17, 0.1, 8, 14],
   [3, 3.5, 1.7, 10, 17, 8],
   [17, 8, 0.05, 10, 0.1, 14]]

/-- The `P` matrix from the notebook's `hartmann6`: `10 ** -4` times the
integer matrix written in the code. -/
def h6P : List (List ℝ) :=
  [[1312, 1696, 5569, 124, 8283, 5886],
   [2329, 4135, 8307, 3736, 1004, 9991],
   [2348, 1451, 3522, 2883, 3047, 6650],
   [4047, 8828, 8732, 5743, 1091, 381]].map
    (fun row => row.map (fun v => (10 : ℝ) ^ (-4 : ℤ) * v))

/-- The inner loop of the notebook's `hartmann6`: starting from `0.0`,
accumulate `A[i, j] * (x - P[i, j]) ** 2` over the enumerated coordinate
list `[x1, x2, x3, x4, x5, x6]`. -/
def h6inner (xs : List ℝ) (Ai Pi : List ℝ) : ℝ :=
  (xs.zip (Ai.zip Pi)).foldl (fun inner xap => inner + xap.2.1 * (xap.1 - xap.2.2) ^ 2) 0.0

/-- The notebook's `hartmann6` function: the outer loop accumulates
`alpha[i] * exp(-inner)` over the four rows and the result is negated. -/
def hartmann6 (x1 x2 x3 x4 x5 x6 : ℝ) : ℝ :=
  -((h6alpha.zip (h6A.zip h6P)).foldl
      (fun outer aAP =>
        outer + aAP.1 * Real.exp (-(h6inner [x1, x2, x3, x4, x5, x6] aAP.2.1 aAP.2.2)))
      0.0)

/-- The `alpha` vector of the reference formula displayed in the
notebook's markdown: `(1.0, 1.2, 3.0, 3.2)ᵀ`. -/
def refAlpha : Fin 4 → ℝ := ![1.0, 1.2, 3.0, 3.2]

/-- The `A` matrix of the reference formula displayed in the notebook's
markdown. -/
def refA : Fin 4 → Fin 6 → ℝ :=
  ![![10, 3, 17, 3.50, 1.7, 8],
    ![0.05, 10, 17, 0.1, 8, 14],
    ![3, 3.5, 1.7, 10, 17, 8],
    ![17, 8, 0.05, 10, 0.1, 14]]

/-- The `P` matrix of the reference formula displayed in the notebook's
markdown: `10⁻⁴` times the displayed integer matrix. -/
def refP : Fin 4 → Fin 6 → ℝ :=
  fun i j =>
    (10 : ℝ) ^ (-4 : ℤ) *
      (![![1312, 1696, 5569, 124, 8283, 5886],
         ![2329, 4135, 8307, 3736, 1004, 9991],
         ![2348, 1451, 3522, 2883, 3047, 6650],
         ![4047, 8828, 8732, 5743, 1091, 381]] : Fin 4 → Fin 6 → ℝ) i j

/-- The standard Hartmann6 reference definition as displayed in the
notebook's markdown:
`f(x) = -∑ i, alpha i * exp (-∑ j, A i j * (x j - P i j)^2)`. -/
def hartmann6Ref (x : Fin 6 → ℝ) : ℝ :=
  -(∑ i : Fin 4, refAlpha i * Real.exp (-(∑ j : Fin 6, refA i j * (x j - refP i j) ^ 2)))

end

/-! Source embedding: the simulated 3D-printing `evaluate` function from
the materials-science notebook.  Dictionary lookups and the division are
modelled as fallible (`none` models a Python `KeyError` /
`ZeroDivisionError`); scalars are rationals. -/

/-- The `strength_map` dictionary from the notebook's `evaluate`. -/
def strengthMap : List (String × ℚ) :=
  [("lines", 1), ("rectilinear", 2), ("gyroid", 5), ("honeycomb", 10)]

/-- The `weight_map` dictionary from the notebook's `evaluate`. -/
def weightMap : List (String × ℚ) :=
  [("lines", 1), ("rectilinear", 2), ("gyroid", 3), ("honeycomb", 9)]

/-- The notebook's `evaluate` function: returns the dictionary with keys
`"compressive_strength"` and `"weight"`, computed as
`infill_density / layer_height * map[infill_type]` scaled by `1/100`
resp. `1/200`; `none` models a lookup or division failure. -/
def evaluate (infill_density layer_height : ℚ) (infill_type : String) :
    Option (List (String × ℚ)) :=
  match strengthMap.lookup infill_type, weightMap.lookup infill_type with
  | some s, some w =>
    if layer_height = 0 then
      none
    else
      some [("compressive_strength", infill_density / layer_height * s / 100),
            ("weight", infill_density / layer_height * w / 200)]
  | _, _ => none

/-- The configured 3D-printing parameter space from the
materials-science notebook: `infill_density` in `[0, 100]`,
`layer_height` in `[0.1, 0.4]`, `infill_type` one of the four infill
patterns. -/
def space3dp : ParamSpace :=
  [⟨"infill_density", .contRange 0 100 false⟩,
   ⟨"layer_height", .contRange 0.1 0.4 false⟩,
   ⟨"infill_type", .choice [.str "honeycomb", .str "gyroid", .str "lines", .str "rectilinear"] false⟩]

/-! Concrete experiment states used to instantiate the claims (drawn from
the spec's §8 test vectors and the notebooks' configurations). -/

/-- A one-parameter space used for concrete instances. -/
def spW : ParamSpace := [⟨"x", .contRange 0 100 false⟩]

/-- An optimization configuration with no objectives and no constraints. -/
def cfgEmpty : OptConfig := ⟨[], []⟩

/-- Concrete parameterization `x = 1`. -/
def pzW1 : Parameterization := [("x", PValue.num 1)]

/-- Concrete parameterization `x = 2`. -/
def pzW2 : Parameterization := [("x", PValue.num 2)]

/-- Concrete parameterization `x = 3`. -/
def pzW3 : Parameterization := [("x", PValue.num 3)]

/-- A COMPLETED trial with final data attached. -/
def trialDone : Trial := ⟨0, pzW1, .completed, [], some [("m", 1)]⟩

/-- An experiment whose Ledger holds one COMPLETED (terminal) trial. -/
def exC2 : Experiment := ⟨spW, cfgEmpty, [trialDone]⟩

/-- A RUNNING trial with no observations yet. -/
def trialRun : Trial := ⟨0, pzW1, .running, [], none⟩

/-- An experiment whose Ledger holds one RUNNING trial. -/
def exC5 : Experiment := ⟨spW, cfgEmpty, [trialRun]⟩

/-- A fresh experiment with an empty Ledger over `spW`. -/
def exEmpty : Experiment := Experiment.init spW cfgEmpty

/-- Single-objective configuration: maximize `obj` with weight 1. -/
def cfgMax : OptConfig := ⟨[⟨"obj", false, 1⟩], []⟩

/-- Completed trial with objective value 3.2 (§8 best-point vector). -/
def tC3a0 : Trial := ⟨0, [], .completed, [], some [("obj", 3.2)]⟩

/-- Completed trial with objective value 5.1 (§8 best-point vector). -/
def tC3a1 : Trial := ⟨1, [], .completed, [], some [("obj", 5.1)]⟩

/-- Completed trial with objective value 1.0 (§8 best-point vector). -/
def tC3a2 : Trial := ⟨2, [], .completed, [], some [("obj", 1.0)]⟩

/-- Experiment with completed objective values 3.2, 5.1, 1.0 and no
constraints (§8). -/
def exC3a : Experiment := ⟨spW, cfgMax, [tC3a0, tC3a1, tC3a2]⟩

/-- Configuration maximizing `obj` under the outcome constraint
`weight <= 10` (§8). -/
def cfgC3b : OptConfig := ⟨[⟨"obj", false, 1⟩], [⟨"weight", true, 10⟩]⟩

/-- Completed trial with the better objective but weight 12 (§8). -/
def tC3b0 : Trial := ⟨0, [], .completed, [], some [("obj", 100), ("weight", 12)]⟩

/-- Completed trial with weight 8 (§8). -/
def tC3b1 : Trial := ⟨1, [], .completed, [], some [("obj", 50), ("weight", 8)]⟩

/-- Experiment for the `weight <= 10` best-point vector (§8). -/
def exC3b : Experiment := ⟨spW, cfgC3b, [tC3b0, tC3b1]⟩

/-- Experiment with a single completed integer-valued objective reading,
used to instantiate the best-point characterization. -/
def exC3w : Experiment := ⟨spW, cfgMax, [⟨0, [], .completed, [], some [("obj", 3)]⟩]⟩

/-- Multi-objective configuration: maximize `score`, minimize `time`
(§8 Pareto vector). -/
def cfgC4 : OptConfig := ⟨[⟨"score", false, 1⟩, ⟨"time", true, 1⟩], []⟩

/-- Completed trial with (score, time) = (0.9, 5) (§8). -/
def tC4a : Trial := ⟨0, [], .completed, [], some [("score", 0.9), ("time", 5)]⟩

/-- Completed trial with (score, time) = (0.95, 10) (§8). -/
def tC4b : Trial := ⟨1, [], .completed, [], some [("score", 0.95), ("time", 10)]⟩

/-- Completed trial with (score, time) = (0.8, 2) (§8). -/
def tC4c : Trial := ⟨2, [], .completed, [], some [("score", 0.8), ("time", 2)]⟩

/-- Experiment for the §8 Pareto-frontier vector. -/
def exC4 : Experiment := ⟨spW, cfgC4, [tC4a, tC4b, tC4c]⟩

/-- Configuration maximizing `strength` under `weight <= 10`. -/
def cfgC7 : OptConfig := ⟨[⟨"strength", false, 1⟩], [⟨"weight", true, 10⟩]⟩

/-- Completed trial whose final raw data satisfies the `weight <= 10`
constraint but carries no reading for the objective metric. -/
def tC7 : Trial := ⟨0, [], .completed, [], some [("weight", 8)]⟩

/-- Experiment whose only completed trial satisfies all outcome
constraints yet does not cover the objective metric. -/
def exC7 : Experiment := ⟨spW, cfgC7, [tC7]⟩

/-! Ledger-shape lemmas. -/

theorem mkTrials_map_index (n : ℕ) (ps : List Parameterization) :
    (mkTrials n ps).map Trial.index = List.range' n ps.length := by
  induction ps generalizing n with
  | nil => rfl
  | cons p ps ih =>
    simp only [mkTrials, List.map_cons, ih, List.length_cons]
    rw [List.range'_succ]

theorem mkTrials_length (n : ℕ) (ps : List Parameterization) :
    (mkTrials n ps).length = ps.length := by
  have h := congrArg List.length (mkTrials_map_index n ps)
  simpa using h

theorem mkTrials_shape (n : ℕ) (ps : List Parameterization) :
    ∀ t ∈ mkTrials n ps, t.observations = [] ∧ t.status = .running := by
  induction ps generalizing n with
  | nil => intro t ht; cases ht
  | cons p ps ih =>
    intro t ht
    rcases ht with _ | ⟨_, ht⟩
    · exact ⟨rfl, rfl⟩
    · exact ih (n + 1) t ht

theorem range_append_range' (n k : ℕ) :
    List.range n ++ List.range' n k = List.range (n + k) := by
  induction k with
  | zero => simp
  | succ k ih =>
    rw [List.range'_concat, ← List.append_assoc, ih]
    have h1 : n + (k + 1) = (n + k) + 1 := rfl
    rw [h1, List.range_succ]
    norm_num

theorem updateTrial_map_index (e : Experiment) (i : ℕ) (f : Trial → Trial)
    (hf : ∀ t, (f t).index = t.index) :
    (e.updateTrial i f).ledger.map Trial.index = e.ledger.map Trial.index := by
  simp only [Experiment.updateTrial]
  rw [List.map_map]
  refine List.map_congr_left ?_
  intro t _
  by_cases h : t.index = i <;> simp [h, hf]

theorem updateTrial_indicesOk (e : Experiment) (i : ℕ) (f : Trial → Trial)
    (hf : ∀ t, (f t).index = t.index) (h : indicesOk e) :
    indicesOk (e.updateTrial i f) := by
  unfold indicesOk at h ⊢
  rw [updateTrial_map_index e i f hf]
  simpa [Experiment.updateTrial] using h

theorem append_indicesOk (e : Experiment) (ps : List Parameterization) (h : indicesOk e) :
    indicesOk { e with ledger := e.ledger ++ mkTrials e.ledger.length ps } := by
  unfold indicesOk at h ⊢
  simp only [List.map_append, List.length_append, mkTrials_map_index, mkTrials_length, h]
  exact range_append_range' _ _

theorem applyOp_indicesOk (e : Experiment) (op : Op) (h : indicesOk e) :
    indicesOk (applyOp e op) := by
  cases op with
  | ask cands =>
    simp only [applyOp, ask]
    split
    · exact append_indicesOk e cands h
    · exact h
  | attach pz =>
    simp only [applyOp, attachTrial]
    split
    · exact append_indicesOk e [pz] h
    · exact h
  | tell i raw =>
    simp only [applyOp, tell]
    rcases hft : e.findTrial i with _ | t
    · exact h
    · simp only []
      split
      · exact h
      · exact updateTrial_indicesOk e i _ (fun t => rfl) h
  | reportProgress i raw prog =>
    simp only [applyOp, reportProgress]
    rcases hft : e.findTrial i with _ | t
    · exact h
    · simp only []
      split
      · exact h
      · rcases hlp : lastProgression t with _ | p
        · exact updateTrial_indicesOk e i _ (fun t => rfl) h
        · simp only []
          split
          · exact h
          · exact updateTrial_indicesOk e i _ (fun t => rfl) h
  | markEarlyStopped i =>
    simp only [applyOp, markEarlyStopped]
    rcases hft : e.findTrial i with _ | t
    · exact h
    · simp only []
      split
      · exact updateTrial_indicesOk e i _ (fun t => rfl) h
      · exact h
  | markFailed i =>
    simp only [applyOp, markFailed]
    rcases hft : e.findTrial i with _ | t
    · exact h
    · simp only []
      split
      · exact h
      · exact updateTrial_indicesOk e i _ (fun t => rfl) h

theorem applyOp_map_index_append (e : Experiment) (op : Op) :
    ∃ tl, (applyOp e op).ledger.map Trial.index = e.ledger.map Trial.index ++ tl := by
  cases op with
  | ask cands =>
    simp only [applyOp, ask]
    split
    · exact ⟨(mkTrials e.ledger.length cands).map Trial.index, by simp⟩
    · exact ⟨[], by simp⟩
  | attach pz =>
    simp only [applyOp, attachTrial]
    split
    · exact ⟨(mkTrials e.ledger.length [pz]).map Trial.index, by simp⟩
    · exact ⟨[], by simp⟩
  | tell i raw =>
    simp only [applyOp, tell]
    rcases hft : e.findTrial i with _ | t
    · exact ⟨[], by simp⟩
    · simp only []
      split
      · exact ⟨[], by simp⟩
      · refine ⟨[], ?_⟩
        rw [List.append_nil]
        exact updateTrial_map_index e i _ (fun t => rfl)
  | reportProgress i raw prog =>
    simp only [applyOp, reportProgress]
    rcases hft : e.findTrial i with _ | t
    · exact ⟨[], by simp⟩
    · simp only []
      split
      · exact ⟨[], by simp⟩
      · rcases hlp : lastProgression t with _ | p
        · refine ⟨[], ?_⟩
          rw [List.append_nil]
          exact updateTrial_map_index e i _ (fun t => rfl)
        · simp only []
          split
          · exact ⟨[], by simp⟩
          · refine ⟨[], ?_⟩
            rw [List.append_nil]
            exact updateTrial_map_index e i _ (fun t => rfl)
  | markEarlyStopped i =>
    simp only [applyOp, markEarlyStopped]
    rcases hft : e.findTrial i with _ | t
    · exact ⟨[], by simp⟩
    · simp only []
      split
      · refine ⟨[], ?_⟩
        rw [List.append_nil]
        exact updateTrial_map_index e i _ (fun t => rfl)
      · exact ⟨[], by simp⟩
  | markFailed i =>
    simp only [applyOp, markFailed]
    rcases hft : e.findTrial i with _ | t
    · exact ⟨[], by simp⟩
    · simp only []
      split
      · exact ⟨[], by simp⟩
      · refine ⟨[], ?_⟩
        rw [List.append_nil]
        exact updateTrial_map_index e i _ (fun t => rfl)

theorem run_indicesOk (e : Experiment) (ops : List Op) (h : indicesOk e) :
    indicesOk (run e ops) := by
  induction ops generalizing e with
  | nil => exact h
  | cons op ops ih => exact ih (applyOp e op) (applyOp_indicesOk e op h)

theorem init_indicesOk (sp : ParamSpace) (cfg : OptConfig) :
    indicesOk (Experiment.init sp cfg) := rfl

theorem run_append_op (e : Experiment) (ops : List Op) (op : Op) :
    run e (ops ++ [op]) = applyOp (run e ops) op := by
  simp [run, List.foldl_append]

/-! Observation-monotonicity lemmas. -/

theorem pairwise_le_getLast (l : List ℚ) (hl : l.Pairwise (· ≤ ·)) (b : ℚ)
    (hb : l.getLast? = some b) : ∀ a ∈ l, a ≤ b := by
  induction l with
  | nil => cases hb
  | cons x xs ih =>
    intro a ha
    rcases List.mem_cons.mp ha with rfl | ha
    · cases xs with
      | nil =>
        simp only [List.getLast?_singleton, Option.some.injEq] at hb
        exact le_of_eq hb
      | cons y ys =>
        rw [List.getLast?_cons_cons] at hb
        have hbm : b ∈ y :: ys := List.mem_of_getLast?_eq_some hb
        exact List.rel_of_pairwise_cons hl hbm
    · cases xs with
      | nil => cases ha
      | cons y ys =>
        rw [List.getLast?_cons_cons] at hb
        exact ih (List.Pairwise.of_cons hl) hb a ha

theorem getLast?_map_fst (l : List (ℚ × RawData)) :
    (l.map Prod.fst).getLast? = l.getLast?.map Prod.fst := by
  induction l with
  | nil => rfl
  | cons x xs ih =>
    cases xs with
    | nil => rfl
    | cons y ys =>
      simp only [List.map_cons] at ih ⊢
      rw [List.getLast?_cons_cons, ih, List.getLast?_cons_cons]

theorem findTrial_index (e : Experiment) (i : ℕ) (t : Trial)
    (h : e.findTrial i = some t) : t.index = i := by
  have := List.find?_some h
  simpa using this

theorem findTrial_mem (e : Experiment) (i : ℕ) (t : Trial)
    (h : e.findTrial i = some t) : t ∈ e.ledger :=
  List.mem_of_find?_eq_some h

theorem findTrial_unique (e : Experiment) (i : ℕ) (t₀ : Trial)
    (hok : indicesOk e) (hfind : e.findTrial i = some t₀) :
    ∀ u ∈ e.ledger, u.index = i → u = t₀ := by
  intro u hu hui
  have hnd : (e.ledger.map Trial.index).Nodup := by
    rw [hok]; exact List.nodup_range _
  have ht₀ : t₀ ∈ e.ledger := findTrial_mem e i t₀ hfind
  have hti : t₀.index = i := findTrial_index e i t₀ hfind
  exact List.inj_on_of_nodup_map hnd hu ht₀ (by rw [hui, hti])

theorem findTrial_update (e : Experiment) (i : ℕ) (f : Trial → Trial)
    (hf : ∀ t, (f t).index = t.index) :
    (e.updateTrial i f).findTrial i
      = Option.map (fun t => if t.index == i then f t else t) (e.findTrial i) := by
  simp only [Experiment.findTrial, Experiment.updateTrial]
  rw [List.find?_map]
  have hp : ((fun t : Trial => t.index == i) ∘ fun t => if t.index == i then f t else t)
      = fun t : Trial => t.index == i := by
    funext t
    by_cases h : t.index = i <;> simp [h, hf]
  rw [hp]

theorem update_obsSorted_of_preserve (e : Experiment) (i : ℕ) (f : Trial → Trial)
    (hfo : ∀ t, (f t).observations = t.observations) (h : obsSorted e) :
    obsSorted (e.updateTrial i f) := by
  intro t' ht'
  simp only [Experiment.updateTrial] at ht'
  rcases List.mem_map.mp ht' with ⟨u, hu, rfl⟩
  by_cases hui : u.index = i <;> simp [hui, hfo] <;> exact h u hu

theorem append_obsSorted (e : Experiment) (ps : List Parameterization) (h : obsSorted e) :
    obsSorted { e with ledger := e.ledger ++ mkTrials e.ledger.length ps } := by
  intro t ht
  rcases List.mem_append.mp ht with hmem | hmem
  · exact h t hmem
  · rcases mkTrials_shape e.ledger.length ps t hmem with ⟨hobs, _⟩
    simp [hobs]

theorem update_obsSorted_append (e : Experiment) (i : ℕ) (prog : ℚ) (raw : RawData)
    (t₀ : Trial) (hok : indicesOk e) (h : obsSorted e)
    (hfind : e.findTrial i = some t₀)
    (hlast : ∀ p, lastProgression t₀ = some p → p ≤ prog) :
    obsSorted (e.updateTrial i
      (fun t => { t with observations := t.observations ++ [(prog, raw)] })) := by
  intro t' ht'
  simp only [Experiment.updateTrial] at ht'
  rcases List.mem_map.mp ht' with ⟨u, hu, rfl⟩
  by_cases hui : u.index = i
  · have huu : u = t₀ := findTrial_unique e i t₀ hok hfind u hu hui
    subst huu
    rw [if_pos (show (u.index == i) = true by simpa using hui)]
    have hsorted : (u.observations.map Prod.fst).Pairwise (· ≤ ·) := h u hu
    simp only [List.map_append, List.map_cons, List.map_nil]
    rw [List.pairwise_append]
    refine ⟨hsorted, List.pairwise_singleton _ _, ?_⟩
    intro a ha b hb
    simp only [List.mem_singleton] at hb
    rw [hb]
    rcases hgl : u.observations.getLast? with _ | lastPair
    · have : u.observations = [] := by simpa using hgl
      rw [this] at ha
      cases ha
    · have hlp : lastProgression u = some lastPair.1 := by
        simp [lastProgression, hgl]
      have hle : lastPair.1 ≤ prog := hlast lastPair.1 hlp
      have hglf : (u.observations.map Prod.fst).getLast? = some lastPair.1 := by
        rw [getLast?_map_fst, hgl]; rfl
      exact le_trans (pairwise_le_getLast _ hsorted _ hglf a ha) hle
  · rw [if_neg (show ¬ (u.index == i) = true by simpa using hui)]
    exact h u hu

theorem applyOp_obsSorted (e : Experiment) (op : Op)
    (hok : indicesOk e) (h : obsSorted e) : obsSorted (applyOp e op) := by
  cases op with
  | ask cands =>
    simp only [applyOp, ask]
    split
    · exact append_obsSorted e cands h
    · exact h
  | attach pz =>
    simp only [applyOp, attachTrial]
    split
    · exact append_obsSorted e [pz] h
    · exact h
  | tell i raw =>
    simp only [applyOp, tell]
    rcases hft : e.findTrial i with _ | t
    · exact h
    · simp only []
      split
      · exact h
      · exact update_obsSorted_of_preserve e i _ (fun t => rfl) h
  | reportProgress i raw prog =>
    simp only [applyOp, reportProgress]
    rcases hft : e.findTrial i with _ | t
    · exact h
    · simp only []
      split
      · exact h
      · rcases hlp : lastProgression t with _ | p
        · exact update_obsSorted_append e i prog raw t hok h hft
            (by intro p hp; rw [hlp] at hp; cases hp)
        · simp only []
          split
          · exact h
          · rename_i hnotlt
            exact update_obsSorted_append e i prog raw t hok h hft
              (by intro p' hp'; rw [hlp] at hp'; injection hp' with hpp;
                  subst hpp; exact not_lt.mp hnotlt)
  | markEarlyStopped i =>
    simp only [applyOp, markEarlyStopped]
    rcases hft : e.findTrial i with _ | t
    · exact h
    · simp only []
      split
      · exact update_obsSorted_of_preserve e i _ (fun t => rfl) h
      · exact h
  | markFailed i =>
    simp only [applyOp, markFailed]
    rcases hft : e.findTrial i with _ | t
    · exact h
    · simp only []
      split
      · exact h
      · exact update_obsSorted_of_preserve e i _ (fun t => rfl) h

theorem run_good (e : Experiment) (ops : List Op)
    (hok : indicesOk e) (h : obsSorted e) :
    indicesOk (run e ops) ∧ obsSorted (run e ops) := by
  induction ops generalizing e with
  | nil => exact ⟨hok, h⟩
  | cons op ops ih =>
    exact ih (applyOp e op) (applyOp_indicesOk e op hok) (applyOp_obsSorted e op hok h)

theorem init_obsSorted (sp : ParamSpace) (cfg : OptConfig) :
    obsSorted (Experiment.init sp cfg) := by
  intro t ht
  cases ht

/-! Result-Selector lemmas. -/

theorem pickBest_mem (cfg : OptConfig) (b : Trial) (ts : List Trial) :
    pickBest cfg b ts ∈ b :: ts := by
  induction ts generalizing b with
  | nil => exact List.mem_singleton_self b
  | cons t ts ih =>
    rw [pickBest]
    by_cases hc : key cfg b < key cfg t ∨ (key cfg t = key cfg b ∧ t.index < b.index)
    · rw [if_pos hc]
      rcases List.mem_cons.mp (ih t) with h | h
      · rw [h]; exact List.mem_cons_of_mem b (List.mem_cons_self t ts)
      · exact List.mem_cons_of_mem b (List.mem_cons_of_mem t h)
    · rw [if_neg hc]
      rcases List.mem_cons.mp (ih b) with h | h
      · rw [h]; exact List.mem_cons_self b (t :: ts)
      · exact List.mem_cons_of_mem b (List.mem_cons_of_mem t h)

theorem pickBest_opt (cfg : OptConfig) (b : Trial) (ts : List Trial) :
    ∀ u ∈ b :: ts,
      key cfg u ≤ key cfg (pickBest cfg b ts) ∧
      (key cfg u = key cfg (pickBest cfg b ts) → (pickBest cfg b ts).index ≤ u.index) := by
  induction ts generalizing b with
  | nil =>
    intro u hu
    rcases List.mem_cons.mp hu with rfl | hu
    · exact ⟨le_refl _, fun _ => le_refl _⟩
    · cases hu
  | cons t ts ih =>
    intro u hu
    rw [pickBest]
    by_cases hc : key cfg b < key cfg t ∨ (key cfg t = key cfg b ∧ t.index < b.index)
    · rw [if_pos hc]
      rcases List.mem_cons.mp hu with rfl | hu
      · have ht := ih t t (List.mem_cons_self t ts)
        rcases hc with hlt | ⟨heq, hidx⟩
        · refine ⟨le_of_lt (lt_of_lt_of_le hlt ht.1), ?_⟩
          intro habs
          exact absurd (lt_of_lt_of_le hlt ht.1) (by rw [habs]; exact lt_irrefl _)
        · refine ⟨heq ▸ ht.1, ?_⟩
          intro habs
          have h2 : key cfg t = key cfg (pickBest cfg t ts) := by rw [heq, habs]
          exact le_of_lt (lt_of_le_of_lt (ht.2 h2) hidx)
      · exact ih t u hu
    · rw [if_neg hc]
      push_neg at hc
      rcases List.mem_cons.mp hu with rfl | hu
      · exact ih u u (List.mem_cons_self u ts)
      · rcases List.mem_cons.mp hu with rfl | hu
        · have hb := ih b b (List.mem_cons_self b ts)
          refine ⟨le_trans hc.1 hb.1, ?_⟩
          intro habs
          have hbt : key cfg b ≤ key cfg u := by rw [habs]; exact hb.1
          have hub : key cfg u = key cfg b := le_antisymm hc.1 hbt
          have hkb : key cfg b = key cfg (pickBest cfg b ts) := by rw [← hub, habs]
          exact le_trans (hb.2 hkb) (hc.2 hub)
        · exact ih b u (List.mem_cons_of_mem b hu)

theorem bestResult_spec (e : Experiment) (hne : eligible e ≠ []) :
    ∃ r, bestResult e = .ok r ∧ r ∈ eligible e ∧
      ∀ u ∈ eligible e,
        key e.config u ≤ key e.config r ∧
        (key e.config u = key e.config r → r.index ≤ u.index) := by
  rcases heq : eligible e with _ | ⟨t, ts⟩
  · exact absurd heq hne
  · refine ⟨pickBest e.config t ts, ?_, ?_, ?_⟩
    · rw [bestResult, heq]
    · exact pickBest_mem e.config t ts
    · exact pickBest_opt e.config t ts

theorem constraintSatisfying_eq_eligible (e : Experiment)
    (hcov : ∀ t ∈ constraintSatisfying e, coveredB e.config t = true) :
    constraintSatisfying e = eligible e := by
  unfold constraintSatisfying eligible
  refine List.filter_congr ?_
  intro t ht
  unfold eligPred
  cases hcs : completedSatisfying e.config t
  · simp
  · have hcov' : coveredB e.config t = true := by
      apply hcov
      unfold constraintSatisfying
      rw [List.mem_filter]
      exact ⟨ht, hcs⟩
    simp [hcov']

theorem paretoResult_spec (e : Experiment) (l : List Trial)
    (hok : paretoResult e = .ok l) (t : Trial) :
    t ∈ l ↔ t ∈ eligible e ∧ ∀ u ∈ eligible e, dominates e.config u t = false := by
  unfold paretoResult at hok
  by_cases hne : eligible e = []
  · rw [if_pos hne] at hok
    cases hok
  · rw [if_neg hne] at hok
    injection hok with hl
    rw [← hl]
    rw [List.mem_filter]
    constructor
    · rintro ⟨hmem, hall⟩
      refine ⟨hmem, ?_⟩
      intro u hu
      have := List.all_eq_true.mp hall u hu
      simpa using this
    · rintro ⟨hmem, hall⟩
      refine ⟨hmem, ?_⟩
      rw [List.all_eq_true]
      intro u hu
      simpa using hall u hu

/-! Snapshot round-trip lemmas. -/

theorem decList_map {α : Type} (f : α → SExp) (g : SExp → Option α)
    (hfg : ∀ a, g (f a) = some a) (l : List α) :
    decList g (l.map f) = some (l) := by
  induction l with
  | nil => rfl
  | cons x xs ih => simp [decList, hfg, ih]

theorem decPValue_enc (v : PValue) : decPValue (encPValue v) = some v := by
  cases v <;> rfl

theorem decBool_enc (b : Bool) : decBool (encBool b) = some b := by
  cases b <;> rfl

theorem decInt_enc (z : ℤ) : decInt (encInt z) = some z := by
  simp [decInt, encInt]

theorem decDomain_enc (d : Domain) : decDomain (encDomain d) = some d := by
  cases d with
  | contRange lo hi ls => simp [encDomain, decDomain, decBool_enc]
  | intRange lo hi => simp [encDomain, decDomain, decInt_enc]
  | choice vs ord =>
    simp [encDomain, decDomain, decBool_enc, decList_map encPValue decPValue decPValue_enc]

theorem decParamDef_enc (d : ParamDef) : decParamDef (encParamDef d) = some d := by
  cases d with
  | mk n dom => simp [encParamDef, decParamDef, decDomain_enc]

theorem decPzEntry_enc (nv : String × PValue) : decPzEntry (encPzEntry nv) = some nv := by
  cases nv with
  | mk n v => simp [encPzEntry, decPzEntry, decPValue_enc]

theorem decReading_enc (nv : String × ℚ) : decReading (encReading nv) = some nv := rfl

theorem decRaw_enc (d : RawData) : decRaw (encRaw d) = some d := by
  simp [encRaw, decRaw, decList_map encReading decReading decReading_enc]

theorem decObs_enc (o : ℚ × RawData) : decObs (encObs o) = some o := by
  cases o with
  | mk p d => simp [encObs, decObs, decRaw_enc]

theorem decStatus_enc (s : TrialStatus) : decStatus (encStatus s) = some s := by
  cases s <;> rfl

theorem decFinal_enc (f : Option RawData) : decFinal (encFinal f) = some f := by
  cases f with
  | none => rfl
  | some d => simp [encFinal, decFinal, decRaw_enc]

theorem decTrial_enc (t : Trial) : decTrial (encTrial t) = some t := by
  cases t with
  | mk i pz st obs fin =>
    simp [encTrial, decTrial, decStatus_enc, decFinal_enc,
      decList_map encPzEntry decPzEntry decPzEntry_enc,
      decList_map encObs decObs decObs_enc]

theorem decObjective_enc (o : Objective) : decObjective (encObjective o) = some o := by
  cases o with
  | mk m mn w => simp [encObjective, decObjective, decBool_enc]

theorem decConstraint_enc (c : OutcomeConstraint) :
    decConstraint (encConstraint c) = some c := by
  cases c with
  | mk m ub th => simp [encConstraint, decConstraint, decBool_enc]

theorem restore_snapshot (e : Experiment) : restore (snapshot e) = some e := by
  rcases e with ⟨sp, ⟨objs, cons⟩, ledger⟩
  simp [snapshot, restore,
    decList_map encParamDef decParamDef decParamDef_enc,
    decList_map encObjective decObjective decObjective_enc,
    decList_map encConstraint decConstraint decConstraint_enc,
    decList_map encTrial decTrial decTrial_enc]

/-! Claim theorems. -/

/-- C1: For every sequence of ask (`get_next_trials`), attach
(`attach_trial`/`attach_baseline`) and tell (`complete_trial`) operations —
and the remaining controller mutations — on one experiment, the trial
indices assigned to newly created trials are strictly increasing in
creation order and never reused, and the index sequence of the Trial
Ledger only ever grows by appending (trial creation is append-only, no
trial is ever deleted). -/
theorem trial_indices_strictly_increasing_and_append_only
    (sp : ParamSpace) (cfg : OptConfig) (ops : List Op) :
    ((run (Experiment.init sp cfg) ops).ledger.map Trial.index).Pairwise (· < ·) ∧
    ∀ op : Op, ∃ tl,
      (run (Experiment.init sp cfg) (ops ++ [op])).ledger.map Trial.index
        = (run (Experiment.init sp cfg) ops).ledger.map Trial.index ++ tl := by
  constructor
  · have h := (run_good (Experiment.init sp cfg) ops (init_indicesOk sp cfg)
      (init_obsSorted sp cfg)).1
    rw [h]
    exact List.pairwise_lt_range _
  · intro op
    rw [run_append_op]
    exact applyOp_map_index_append _ op

/-- C2: For every trial in a terminal status, any subsequent tell
(`complete_trial`), report_progress (`attach_data`), or
mark_early_stopped call on that trial fails with StateError and returns
the experiment state unchanged, so the trial's stored parameterization,
status, observations and final data are untouched. -/
theorem terminal_trial_rejects_mutations (e : Experiment) (i : ℕ) (t : Trial)
    (raw : RawData) (prog : ℚ)
    (ht : e.findTrial i = some t) (hterm : t.status.isTerminal = true) :
    tell e i raw = (.error .StateError, e) ∧
    reportProgress e i raw prog = (.error .StateError, e) ∧
    markEarlyStopped e i = (.error .StateError, e) := by
  refine ⟨?_, ?_, ?_⟩
  · unfold tell
    rw [ht]
    simp [hterm]
  · unfold reportProgress
    rw [ht]
    simp [hterm]
  · unfold markEarlyStopped
    rw [ht]
    have hrun : (t.status == TrialStatus.running) = false := by
      cases hs : t.status <;> rw [hs] at hterm <;> simp_all [TrialStatus.isTerminal]
    simp [hrun]

/-- Witness for C2 at a concrete COMPLETED trial. -/
theorem terminal_trial_rejects_mutations_witness :
    tell exC2 0 [] = (.error .StateError, exC2) ∧
    reportProgress exC2 0 [] 1 = (.error .StateError, exC2) ∧
    markEarlyStopped exC2 0 = (.error .StateError, exC2) :=
  terminal_trial_rejects_mutations exC2 0 trialDone [] 1 rfl rfl

/-- C3: In a single-objective experiment, `best`
(`get_best_parameterization`) returns, among the completed trials whose
final raw data satisfies every outcome constraint (all of which cover the
configured metrics), the trial with the best objective value after
applying the minimize/maximize direction and linear weighting, breaking
ties by lowest trial index; in particular, with direction-normalized
objective values 3.2, 5.1, 1.0 and no constraints it returns the trial
with 5.1, and under the constraint `weight <= 10` it returns the trial
with weight 8 rather than the otherwise-better trial with weight 12. -/
theorem best_selects_optimal_constraint_satisfying :
    (∀ e : Experiment,
      (∀ t ∈ constraintSatisfying e, coveredB e.config t = true) →
      constraintSatisfying e ≠ [] →
      ∃ r, bestResult e = .ok r ∧ r ∈ constraintSatisfying e ∧
        ∀ u ∈ constraintSatisfying e,
          key e.config u ≤ key e.config r ∧
          (key e.config u = key e.config r → r.index ≤ u.index)) ∧
    bestResult exC3a = .ok tC3a1 ∧
    bestResult exC3b = .ok tC3b1 := by
  refine ⟨?_, ?_, ?_⟩
  · intro e hcov hne
    have heq := constraintSatisfying_eq_eligible e hcov
    rw [heq] at hne ⊢
    exact bestResult_spec e hne
  · simp only [bestResult, eligible, eligPred, completedSatisfying, coveredB,
      satisfiesConstraints, satisfiesConstraint, coversConfig, pickBest, key, scoreOf,
      exC3a, tC3a0, tC3a1, tC3a2, cfgMax, List.lookup, List.filter, List.all]
    simp
    norm_num [pickBest, key, scoreOf, tC3a0, tC3a1, tC3a2]
  · simp only [bestResult, eligible, eligPred, completedSatisfying, coveredB,
      satisfiesConstraints, satisfiesConstraint, coversConfig, pickBest, key, scoreOf,
      exC3b, tC3b0, tC3b1, cfgC3b, List.lookup, List.filter, List.all]
    simp
    norm_num [pickBest, key, scoreOf, tC3b0, tC3b1]

/-- Witness for C3's general clause at a concrete experiment. -/
theorem best_selects_optimal_constraint_satisfying_witness :
    ∃ r, bestResult exC3w = .ok r ∧ r ∈ constraintSatisfying exC3w ∧
      ∀ u ∈ constraintSatisfying exC3w,
        key exC3w.config u ≤ key exC3w.config r ∧
        (key exC3w.config u = key exC3w.config r → r.index ≤ u.index) :=
  best_selects_optimal_constraint_satisfying.1 exC3w (by decide) (by decide)

/-- Counterexample to C4: for the §8 Pareto vector (score, time) =
(0.9, 5), (0.95, 10), (0.8, 2) under maximize-score/minimize-time,
`pareto_frontier` returns all three trials — the trial with (0.9, 5) is
dominated by neither of the others — so the frontier is not exactly the
two points (0.95, 10) and (0.8, 2). -/
theorem pareto_two_point_claim_false :
    paretoResult exC4 = .ok [tC4a, tC4b, tC4c] ∧ tC4a ≠ tC4b ∧ tC4a ≠ tC4c := by
  refine ⟨?_, by simp [tC4a, tC4b], by simp [tC4a, tC4c]⟩
  simp only [paretoResult, eligible, eligPred, completedSatisfying, coveredB,
    satisfiesConstraints, satisfiesConstraint, coversConfig, dominates, dirVal,
    exC4, tC4a, tC4b, tC4c, cfgC4, List.lookup, List.filter, List.all]
  simp
  norm_num [tC4a, tC4b, tC4c]

/-- C4 (amended): `pareto_frontier` (`get_pareto_frontier`) returns
exactly the qualifying trials not dominated by any other qualifying trial
— trial A dominates trial B iff A is at least as good on every objective
and strictly better on at least one after applying each objective's
direction — and on the three trials with (score, time) = (0.9, 5),
(0.95, 10), (0.8, 2) under maximize-score/minimize-time it returns all
three points, which are mutually non-dominated. -/
theorem pareto_frontier_non_dominated :
    (∀ (e : Experiment) (l : List Trial) (t : Trial), paretoResult e = .ok l →
      (t ∈ l ↔ t ∈ eligible e ∧ ∀ u ∈ eligible e, dominates e.config u t = false)) ∧
    paretoResult exC4 = .ok [tC4a, tC4b, tC4c] := by
  constructor
  · intro e l t h
    exact paretoResult_spec e l h t
  · simp only [paretoResult, eligible, eligPred, completedSatisfying, coveredB,
      satisfiesConstraints, satisfiesConstraint, coversConfig, dominates, dirVal,
      exC4, tC4a, tC4b, tC4c, cfgC4, List.lookup, List.filter, List.all]
    simp
    norm_num [tC4a, tC4b, tC4c]

/-- Witness for C4's characterization clause at the concrete frontier. -/
theorem pareto_frontier_non_dominated_witness :
    tC4a ∈ [tC4a, tC4b, tC4c] ↔
      tC4a ∈ eligible exC4 ∧ ∀ u ∈ eligible exC4, dominates exC4.config u tC4a = false :=
  pareto_frontier_non_dominated.1 exC4 [tC4a, tC4b, tC4c] tC4a
    pareto_frontier_non_dominated.2

/-- C5: For every trial of a reachable experiment state, report_progress
(`attach_data`) requires the progression value to be non-decreasing across
successive calls: a call whose progression is smaller than a previously
reported progression for that trial fails with StateError and leaves the
state unchanged, a call with progression at least every previously
reported one succeeds and appends the observation without completing the
trial, and with progression values [10, 20, 15] the third call fails. -/
theorem report_progress_monotone (sp : ParamSpace) (cfg : OptConfig) (ops : List Op)
    (i : ℕ) (t : Trial) (raw : RawData) (prog : ℚ)
    (ht : (run (Experiment.init sp cfg) ops).findTrial i = some t)
    (hnt : t.status.isTerminal = false) :
    ((∃ q ∈ t.observations.map Prod.fst, prog < q) →
      reportProgress (run (Experiment.init sp cfg) ops) i raw prog
        = (.error .StateError, run (Experiment.init sp cfg) ops)) ∧
    ((∀ q ∈ t.observations.map Prod.fst, q ≤ prog) →
      (reportProgress (run (Experiment.init sp cfg) ops) i raw prog).1 = .ok () ∧
      (reportProgress (run (Experiment.init sp cfg) ops) i raw prog).2.findTrial i
        = some { t with observations := t.observations ++ [(prog, raw)] }) ∧
    ((reportProgress exC5 0 [] 10).1 = .ok () ∧
      (reportProgress (reportProgress exC5 0 [] 10).2 0 [] 20).1 = .ok () ∧
      (reportProgress (reportProgress (reportProgress exC5 0 [] 10).2 0 [] 20).2
          0 [] 15).1 = .error .StateError) := by
  have hgood := run_good (Experiment.init sp cfg) ops (init_indicesOk sp cfg)
    (init_obsSorted sp cfg)
  have hsort : (t.observations.map Prod.fst).Pairwise (· ≤ ·) :=
    hgood.2 t (findTrial_mem _ i t ht)
  refine ⟨?_, ?_, rfl, rfl, rfl⟩
  · rintro ⟨q, hq, hlt⟩
    unfold reportProgress
    rw [ht]
    simp only []
    rw [if_neg (by rw [hnt]; exact Bool.false_ne_true)]
    rcases hgl : t.observations.getLast? with _ | lp
    · have hnil : t.observations = [] := by simpa using hgl
      rw [hnil] at hq
      cases hq
    · have hlp : lastProgression t = some lp.1 := by simp [lastProgression, hgl]
      rw [hlp]
      simp only []
      have hglf : (t.observations.map Prod.fst).getLast? = some lp.1 := by
        rw [getLast?_map_fst, hgl]; rfl
      have hqle : q ≤ lp.1 := pairwise_le_getLast _ hsort _ hglf q hq
      rw [if_pos (lt_of_lt_of_le hlt hqle)]
  · intro hall
    unfold reportProgress
    rw [ht]
    simp only []
    rw [if_neg (by rw [hnt]; exact Bool.false_ne_true)]
    have hupd :
        ((run (Experiment.init sp cfg) ops).updateTrial i
            (fun u => { u with observations := u.observations ++ [(prog, raw)] })).findTrial i
          = some { t with observations := t.observations ++ [(prog, raw)] } := by
      rw [findTrial_update (run (Experiment.init sp cfg) ops) i
        (fun u => { u with observations := u.observations ++ [(prog, raw)] })
        (fun u => rfl), ht]
      have hP : t.index = i := findTrial_index _ i t ht
      simp [hP]
    rcases hgl : t.observations.getLast? with _ | lp
    · have hlp : lastProgression t = none := by simp [lastProgression, hgl]
      rw [hlp]
      exact ⟨rfl, hupd⟩
    · have hlp : lastProgression t = some lp.1 := by simp [lastProgression, hgl]
      rw [hlp]
      simp only []
      have hmem : lp.1 ∈ t.observations.map Prod.fst := by
        have : lp ∈ t.observations := List.mem_of_getLast?_eq_some hgl
        exact List.mem_map_of_mem Prod.fst this
      rw [if_neg (not_lt.mpr (hall lp.1 hmem))]
      exact ⟨rfl, hupd⟩

/-- Witness for C5 at a concrete RUNNING trial reached by one attach. -/
theorem report_progress_monotone_witness :
    (reportProgress (run (Experiment.init spW cfgEmpty) [Op.attach pzW1]) 0 [] 5).1
      = .ok () :=
  ((report_progress_monotone spW cfgEmpty [Op.attach pzW1] 0 trialRun [] 5 rfl rfl).2.1
    (by simp [trialRun])).1

/-- C6: Called on a configured experiment with an empty Ledger, ask with
three candidates (`get_next_trials` with `max_trials=3`) whose
parameterizations are valid and pairwise distinct creates exactly 3 new
trials, each inserted into the Ledger in RUNNING status, and returns the
mapping from the 3 new trial indices to their parameterizations; every
returned parameterization lies within the configured bounds and all three
are pairwise distinct. -/
theorem ask_three_creates_three_running_trials (e : Experiment)
    (p1 p2 p3 : Parameterization) (hled : e.ledger = [])
    (hv1 : validParam e.space p1 = true) (hv2 : validParam e.space p2 = true)
    (hv3 : validParam e.space p3 = true)
    (hd1 : p1 ≠ p2) (hd2 : p1 ≠ p3) (hd3 : p2 ≠ p3) :
    (ask e [p1, p2, p3]).1 = .ok [(0, p1), (1, p2), (2, p3)] ∧
    (ask e [p1, p2, p3]).2.ledger
      = [⟨0, p1, .running, [], none⟩, ⟨1, p2, .running, [], none⟩,
         ⟨2, p3, .running, [], none⟩] ∧
    ([p1, p2, p3] : List Parameterization).Pairwise (· ≠ ·) ∧
    ∀ p ∈ [p1, p2, p3], validParam e.space p = true := by
  have hall : ([p1, p2, p3] : List Parameterization).all (validParam e.space) = true := by
    simp [hv1, hv2, hv3]
  refine ⟨?_, ?_, ?_, ?_⟩
  · simp [ask, hall, hled, mkTrials]
  · simp [ask, hall, hled, mkTrials]
  · exact List.Pairwise.cons (by simp [hd1, hd2])
      (List.Pairwise.cons (by simp [hd3]) (List.pairwise_singleton _ _))
  · intro p hp
    rcases List.mem_cons.mp hp with rfl | hp
    · exact hv1
    rcases List.mem_cons.mp hp with rfl | hp
    · exact hv2
    rcases List.mem_cons.mp hp with rfl | hp
    · exact hv3
    cases hp

/-- Witness for C6 on the one-parameter space with three distinct values. -/
theorem ask_three_creates_three_running_trials_witness :
    (ask exEmpty [pzW1, pzW2, pzW3]).1 = .ok [(0, pzW1), (1, pzW2), (2, pzW3)] ∧
    (ask exEmpty [pzW1, pzW2, pzW3]).2.ledger
      = [⟨0, pzW1, .running, [], none⟩, ⟨1, pzW2, .running, [], none⟩,
         ⟨2, pzW3, .running, [], none⟩] ∧
    ([pzW1, pzW2, pzW3] : List Parameterization).Pairwise (· ≠ ·) ∧
    ∀ p ∈ [pzW1, pzW2, pzW3], validParam exEmpty.space p = true :=
  ask_three_creates_three_running_trials exEmpty pzW1 pzW2 pzW3 rfl rfl rfl rfl
    (by decide) (by decide) (by decide)

/-- Counterexample to C7: the experiment `exC7` has a completed trial
whose final raw data satisfies every outcome constraint (weight 8 against
`weight <= 10`), yet `best` and `pareto_frontier` fail with
InsufficientDataError because the objective metric is not covered — so
the failure is not equivalent to "no completed trial's final raw data
satisfies all outcome constraints". -/
theorem insufficient_data_iff_claim_false :
    bestResult exC7 = .error .InsufficientDataError ∧
    paretoResult exC7 = .error .InsufficientDataError ∧
    tC7 ∈ exC7.ledger ∧
    completedSatisfying exC7.config tC7 = true := by
  refine ⟨rfl, rfl, List.mem_cons_self tC7 [], rfl⟩

/-- C7 (amended): `best` and `pareto_frontier` fail with
InsufficientDataError if and only if no completed trial qualifies — that
is, no completed trial's final raw data both covers every metric
referenced by the optimization configuration and satisfies all outcome
constraints; the error is the operation's synchronous return value. -/
theorem insufficient_data_iff_no_eligible (e : Experiment) :
    (bestResult e = .error .InsufficientDataError ↔ eligible e = []) ∧
    (paretoResult e = .error .InsufficientDataError ↔ eligible e = []) := by
  constructor
  · constructor
    · intro h
      rcases heq : eligible e with _ | ⟨t, ts⟩
      · rfl
      · rw [bestResult, heq] at h
        cases h
    · intro h
      rw [bestResult, h]
  · constructor
    · intro h
      by_cases heq : eligible e = []
      · exact heq
      · rw [paretoResult, if_neg heq] at h
        cases h
    · intro h
      rw [paretoResult, if_pos h]

/-- Witness for C7's amended equivalence at a concrete experiment. -/
theorem insufficient_data_iff_no_eligible_witness :
    (bestResult exC7 = .error .InsufficientDataError ↔ eligible exC7 = []) ∧
    (paretoResult exC7 = .error .InsufficientDataError ↔ eligible exC7 = []) :=
  insufficient_data_iff_no_eligible exC7

/-- C8: For every experiment state reached after any sequence of
controller operations, restoring from a snapshot taken at that state
reproduces the experiment — Parameter Space, Optimization Configuration
and every trial record of the Ledger (index, parameterization, status,
progression observations and final raw data) round-trip to equality. -/
theorem snapshot_restore_roundtrip (sp : ParamSpace) (cfg : OptConfig) (ops : List Op) :
    restore (snapshot (run (Experiment.init sp cfg) ops))
      = some (run (Experiment.init sp cfg) ops) :=
  restore_snapshot _

/-- C9: For all real inputs, the notebook's `hartmann6` function computes
exactly the standard Hartmann6 reference definition displayed in the
notebook's markdown — `f(x) = -∑ i, alpha i * exp (-∑ j, A i j *
(x j - P i j)^2)` with `alpha = (1.0, 1.2, 3.0, 3.2)` and the displayed
`A` and `P` matrices (`P` scaled by `10⁻⁴`) — interpreted over the
reals. -/
theorem hartmann6_matches_reference (x1 x2 x3 x4 x5 x6 : ℝ) :
    hartmann6 x1 x2 x3 x4 x5 x6 = hartmann6Ref ![x1, x2, x3, x4, x5, x6] := by
  simp only [hartmann6, hartmann6Ref, h6inner, h6alpha, h6A, h6P, refAlpha, refA, refP,
    List.map_cons, List.map_nil, List.zip_cons_cons, List.zip_nil_right, List.zip_nil_left,
    List.foldl_cons, List.foldl_nil, Fin.sum_univ_succ, Fin.sum_univ_zero,
    Matrix.cons_val_zero, Matrix.cons_val_succ]
  norm_num
  ring_nf

/-- C10: For every parameterization in the configured 3D-printing
parameter space (`infill_density` in [0, 100], `layer_height` in
[0.1, 0.4], `infill_type` one of the four infill patterns), the notebook's
`evaluate` function is total: `layer_height` is nonzero so the division is
well-defined, the `strength_map` and `weight_map` lookups succeed, and the
result is a mapping with exactly the keys `"compressive_strength"` and
`"weight"`. -/
theorem evaluate_total_on_space (d h : ℚ) (t : String)
    (hd0 : 0 ≤ d) (hd1 : d ≤ 100) (hh0 : (0.1 : ℚ) ≤ h) (hh1 : h ≤ (0.4 : ℚ))
    (ht : t ∈ ["honeycomb", "gyroid", "lines", "rectilinear"]) :
    h ≠ 0 ∧ ∃ m, evaluate d h t = some m ∧
      m.map Prod.fst = ["compressive_strength", "weight"] := by
  have hpos : (0 : ℚ) < h := lt_of_lt_of_le (by norm_num) hh0
  have hne : h ≠ 0 := ne_of_gt hpos
  refine ⟨hne, ?_⟩
  simp only [List.mem_cons, List.not_mem_nil, or_false] at ht
  rcases ht with rfl | rfl | rfl | rfl <;>
    · simp [evaluate, strengthMap, weightMap, hne, List.lookup]

/-- Witness for C10 at a concrete in-space parameterization. -/
theorem evaluate_total_on_space_witness :
    (0.25 : ℚ) ≠ 0 ∧ ∃ m, evaluate 50 0.25 "gyroid" = some m ∧
      m.map Prod.fst = ["compressive_strength", "weight"] :=
  evaluate_total_on_space 50 0.25 "gyroid" (by norm_num) (by norm_num)
    (by norm_num) (by norm_num) (by simp)

end AxSpec

